import Mathlib

/-!
Verification of the phrase-reconstruction / candidate-filter / definition-resolver
pipeline (extract_text.py, ontology.py, server.py) against its specification.

Python strings are modelled as lists of characters (`Str`); floats as rationals;
Python dicts with dynamic key access as association lists; a raised exception as
`Except.error`.  The external OLS4 network call is modelled as an explicit
`Except NetError OlsResponse` input (transport error, timeout, bad status or
malformed body on the error side).
-/

set_option maxRecDepth 10000

/-- Python strings, modelled as lists of characters. -/
abbrev Str := List Char

/-- Conversion from a Lean string literal to the `Str` model. -/
def str (s : String) : Str := s.data

/-- ASCII uppercase letter (regex class `[A-Z]`). -/
def isUpperA (c : Char) : Bool := 'A' ≤ c && c ≤ 'Z'

/-- ASCII lowercase letter (regex class `[a-z]`). -/
def isLowerA (c : Char) : Bool := 'a' ≤ c && c ≤ 'z'

/-- ASCII letter (regex class `[A-Za-z]`). -/
def isLetterA (c : Char) : Bool := isUpperA c || isLowerA c

/-- ASCII digit (regex class `[0-9]` / `\d`). -/
def isDigitA (c : Char) : Bool := '0' ≤ c && c ≤ '9'

/-- ASCII alphanumeric (regex class `[A-Za-z0-9]`). -/
def isAlnumA (c : Char) : Bool := isLetterA c || isDigitA c

/-- Characters kept by `re.sub(r"[^A-Za-z0-9\-]", "", w)`: alphanumerics and hyphen. -/
def keepAlnumHyphen (c : Char) : Bool := isAlnumA c || c == '-'

/-- Python `s.lower()` on ASCII text. -/
def lowerStr (s : Str) : Str := s.map Char.toLower

/-- Python `s.strip()`: remove whitespace from both ends. -/
def pyStripWs (s : Str) : Str :=
  ((s.dropWhile Char.isWhitespace).reverse.dropWhile Char.isWhitespace).reverse

/-- Python `s.strip(chars)`: remove the given characters from both ends. -/
def pyStripSet (cs : List Char) (s : Str) : Str :=
  ((s.dropWhile cs.contains).reverse.dropWhile cs.contains).reverse

/-- Python `pat in hay` on strings: substring containment. -/
def strContains (hay pat : Str) : Bool := hay.tails.any (fun t => pat.isPrefixOf t)

/-- Python `s.startswith(p)` for any prefix in the tuple. -/
def startsAnyOf (s : Str) (ps : List Str) : Bool := ps.any (fun p => p.isPrefixOf s)

/-- Python `s.endswith(p)` for any suffix in the tuple. -/
def endsAnyOf (s : Str) (ps : List Str) : Bool := ps.any (fun p => p.isSuffixOf s)

/-- Python `s.endswith("-")`. -/
def endsHyphen (s : Str) : Bool :=
  match s.reverse.head? with
  | some c => c == '-'
  | none => false

/-- Python `s.rstrip("-")`: remove all trailing hyphens. -/
def rstripHyphens (s : Str) : Str := (s.reverse.dropWhile (fun c => c == '-')).reverse

/-- Python `s.isdigit()` on ASCII text: nonempty and all digits. -/
def pyIsDigit (s : Str) : Bool := !s.isEmpty && s.all isDigitA

/-- Python `s.isupper()` on ASCII text: has a cased character and no lowercase one. -/
def pyIsUpper (s : Str) : Bool := s.any isUpperA && !(s.any isLowerA)

/-- Python `s.islower()` on ASCII text: has a cased character and no uppercase one. -/
def pyIsLower (s : Str) : Bool := s.any isLowerA && !(s.any isUpperA)

/-- Python `s.isalpha()` on ASCII text: nonempty and all letters. -/
def pyIsAlpha (s : Str) : Bool := !s.isEmpty && s.all isLetterA

/-- Worker for `splitWs`: accumulates the current word in reverse. -/
def splitWsAux : List Char → List Char → List Str
  | [], acc => if acc.isEmpty then [] else [acc.reverse]
  | c :: rest, acc =>
    if c.isWhitespace then
      if acc.isEmpty then splitWsAux rest [] else acc.reverse :: splitWsAux rest []
    else splitWsAux rest (c :: acc)

/-- Python `s.split()`: split on whitespace runs, dropping empty parts. -/
def splitWs (s : Str) : List Str := splitWsAux s []

/-- Worker for `splitChar`: accumulates the current part in reverse. -/
def splitChAux (sep : Char) : List Char → List Char → List Str
  | [], acc => [acc.reverse]
  | c :: rest, acc =>
    if c == sep then acc.reverse :: splitChAux sep rest []
    else splitChAux sep rest (c :: acc)

/-- Python `s.split(sep)` for a one-character separator, keeping empty parts. -/
def splitChar (sep : Char) (s : Str) : List Str := splitChAux sep s []

/-- Python `" ".join(parts)`. -/
def joinSpace (parts : List Str) : Str := List.intercalate [' '] parts

/-! ## ontology.py — constants and the word-level candidate filter -/

/-- Cap on the candidate set size (`MAX_TERMS_PER_DOCUMENT` in ontology.py). -/
def MAX_TERMS_PER_DOCUMENT : Nat := 300

/-- The `COMMON_WORDS` set of ontology.py. -/
def COMMON_WORDS : List Str :=
  [str r"the", str r"and", str r"for", str r"with", str r"from", str r"that",
   str r"this", str r"were", str r"have", str r"been",
   str r"in", str r"on", str r"of", str r"to", str r"as", str r"by", str r"is",
   str r"are", str r"be", str r"or", str r"an", str r"at", str r"it",
   str r"we", str r"was", str r"using", str r"used", str r"use", str r"our",
   str r"their", str r"these", str r"those",
   str r"its", str r"they", str r"them", str r"he", str r"she", str r"his",
   str r"her", str r"you", str r"your", str r"i",
   str r"into", str r"onto", str r"within", str r"between", str r"through",
   str r"over", str r"under", str r"out",
   str r"up", str r"down", str r"off", str r"than", str r"then", str r"also",
   str r"such", str r"each", str r"both", str r"via",
   str r"per", str r"among", str r"amid", str r"despite", str r"during",
   str r"before", str r"after", str r"because"]

/-- The `SCI_PREFIXES` tuple of ontology.py. -/
def SCI_PREFIXES : List Str :=
  [str r"bio", str r"micro", str r"immuno", str r"neuro", str r"cyto",
   str r"geno", str r"patho", str r"chemo", str r"thermo", str r"myco", str r"entomo"]

/-- The `SCI_SUFFIXES` tuple of ontology.py. -/
def SCI_SUFFIXES : List Str :=
  [str r"ase", str r"itis", str r"osis", str r"emia", str r"phage", str r"phyte",
   str r"coccus", str r"viridae", str r"aceae", str r"ales",
   str r"bacteria", str r"mycetes", str r"mycotina", str r"phyta", str r"phyceae",
   str r"mycota", str r"archaea"]

/-- The `ALLOWED_LOWER` set of ontology.py. -/
def ALLOWED_LOWER : List Str :=
  [str r"biofilm", str r"larvae", str r"pathogen", str r"pathogenic",
   str r"lipoprotein", str r"lipoproteins",
   str r"adhesion", str r"invasion", str r"dissemination", str r"strain",
   str r"strains", str r"protein", str r"proteins", str r"microorganism",
   str r"microorganisms", str r"enzyme",
   str r"bacteria", str r"fungi", str r"colony", str r"colonies",
   str r"pneumonia", str r"mastitis", str r"arthritis", str r"otitis", str r"media"]

/-- Regex `^[A-Z][a-z]+$`: one uppercase letter then one or more lowercase letters. -/
def capLowerPlus (s : Str) : Bool :=
  match s with
  | c :: rest => isUpperA c && !rest.isEmpty && rest.all isLowerA
  | [] => false

/-- Transcription of `looks_like_author_name` of ontology.py: `^[A-Z][a-z]+$` or `^[A-Z][a-z]+,$`. -/
def looks_like_author_name (word : Str) : Bool :=
  capLowerPlus word ||
    (match word.reverse with
     | c :: restRev => c == ',' && capLowerPlus restRev.reverse
     | [] => false)

/-- Transcription of `is_acronym` of ontology.py: `word.isupper() and len(word) >= 3`. -/
def is_acronym (word : Str) : Bool := pyIsUpper word && decide (3 ≤ word.length)

/-- Transcription of `clean_token` of ontology.py: strip whitespace, strip punctuation from the
ends, and delete zero-width space, soft hyphen and non-breaking hyphen. -/
def clean_token (token : Str) : Str :=
  let punct : List Char := ['.', ',', ';', ':', '(', ')', '[', ']',
                            Char.ofNat 123, Char.ofNat 125]
  ((pyStripSet punct (pyStripWs token)).filter
    (fun c => !(c == Char.ofNat 0x200b || c == Char.ofNat 0xad || c == Char.ofNat 0x2011)))

/-- Transcription of `words_from_phrase_text` of ontology.py: whitespace-split, clean each token,
keep the nonempty ones. -/
def words_from_phrase_text (phrase_text : Str) : List Str :=
  ((splitWs phrase_text).map clean_token).filter (fun t => !t.isEmpty)

/-- Regex `^[A-Za-z]{2,6}\d*[A-Za-z]*$` (the gene-like pattern at ontology.py:151):
some 2–6 letter head, then digits, then letters. -/
def geneLike (s : Str) : Bool :=
  (List.range' 2 5).any fun i =>
    decide (i ≤ s.length) && (s.take i).all isLetterA &&
      ((s.drop i).dropWhile isDigitA).all isLetterA

/-- Regex `^[A-Z]{1,4}\d{1,4}[A-Za-z0-9]*$` (the strain-like pattern at
ontology.py:155): 1–4 uppercase letters, at least one digit, then alphanumerics. -/
def strainLike (s : Str) : Bool :=
  (List.range' 1 4).any fun i =>
    decide (i ≤ s.length) && (s.take i).all isUpperA &&
      (match s.drop i with
       | c :: rest => isDigitA c && rest.all isAlnumA
       | [] => false)

/-- Regex `^[A-Z][a-zA-Z]+$` (the broader scientific-name pattern at ontology.py:171). -/
def capLetterPlus (s : Str) : Bool :=
  match s with
  | c :: rest => isUpperA c && !rest.isEmpty && rest.all isLetterA
  | [] => false

/-- Transcription of `is_candidate_single_word` of ontology.py, transcribed branch by branch. -/
def is_candidate_single_word (raw_word : Str) : Bool :=
  if raw_word.isEmpty then false else
  let word_clean := raw_word.filter keepAlnumHyphen
  if word_clean.isEmpty then false else
  if word_clean.length < 3 then false else
  let lower := lowerStr word_clean
  if COMMON_WORDS.contains lower then false else
  if pyIsDigit word_clean then false else
  if looks_like_author_name word_clean then false else
  if is_acronym word_clean then false else
  if pyIsLower word_clean then
    ALLOWED_LOWER.contains lower || startsAnyOf lower SCI_PREFIXES ||
      endsAnyOf lower SCI_SUFFIXES
  else
  if geneLike word_clean then true else
  if strainLike word_clean then true else
  if endsAnyOf lower [str r"aceae"] then true else
  if endsAnyOf lower [str r"ales"] then true else
  if capLowerPlus word_clean then true else
  if capLetterPlus word_clean then true else
  if endsAnyOf lower [str r"protein"] || endsAnyOf lower [str r"proteins"] then true else
  if startsAnyOf lower SCI_PREFIXES then true else
  if endsAnyOf lower SCI_SUFFIXES then true else
  false

/-! ## ontology.py — phrase-level filtering and n-grams -/

/-- Transcription of `phrase_is_citation` of ontology.py: "et al", `^[A-Z][a-z]+ [A-Z][a-z]+$`,
or `^[A-Z][a-z]+, \d{4}$`. -/
def phrase_is_citation (phrase : Str) : Bool :=
  if strContains (lowerStr phrase) (str r"et al") then true
  else if (match splitChar ' ' phrase with
           | [w1, w2] => capLowerPlus w1 && capLowerPlus w2
           | _ => false) then true
  else if (match splitChar ' ' phrase with
           | [w1, w2] =>
             (match w1.reverse with
              | c :: restRev => c == ',' && capLowerPlus restRev.reverse
              | [] => false) &&
             decide (w2.length = 4) && w2.all isDigitA
           | _ => false) then true
  else false

/-- The `PROCEDURAL_PATTERNS` list of ontology.py. -/
def PROCEDURAL_PATTERNS : List Str :=
  [str r"were incubated", str r"cultures were", str r"incubated at",
   str r"listed as", str r"co-first", str r"were", str r"was", str r"to isolate",
   str r"important pathogen", str r"serious pneumonia", str r"an important",
   str r"the genome size", str r"genome size of", str r"gc content",
   str r"complete genome", str r"genome sequence", str r"sequence of",
   str r"international license", str r"volume", str r"issue", str r"e00001",
   str r"accession", str r"genbank", str r"samn", str r"cp0", str r"biosample",
   str r"bioproject", str r"biosystems"]

/-- Transcription of `phrase_is_procedural_or_metadata` of ontology.py. -/
def phrase_is_procedural_or_metadata (phrase : Str) : Bool :=
  PROCEDURAL_PATTERNS.any (fun pat => strContains (lowerStr phrase) pat)

/-- Transcription of `is_species_like` of ontology.py: at least two words whose first two are
alphabetic, length ≥ 3 and not common words. -/
def is_species_like (words : List Str) : Bool :=
  match words with
  | w1 :: w2 :: _ =>
    pyIsAlpha w1 && pyIsAlpha w2 &&
      decide (3 ≤ w1.length) && decide (3 ≤ w2.length) &&
      !COMMON_WORDS.contains (lowerStr w1) && !COMMON_WORDS.contains (lowerStr w2)
  | _ => false

/-- Transcription of `is_candidate_phrase_full` of ontology.py. -/
def is_candidate_phrase_full (phrase_text : Str) : Bool :=
  if phrase_text.isEmpty then false else
  if phrase_is_citation phrase_text then false else
  if phrase_is_procedural_or_metadata phrase_text then false else
  let words := words_from_phrase_text phrase_text
  if words.length < 2 then false else
  if words.all looks_like_author_name then false else
  if is_species_like words then true else
  let lower := lowerStr phrase_text
  if strContains lower (str r"strain") || strContains lower (str r"serotype") ||
     strContains lower (str r"subspecies") then true else
  words.any (fun w =>
    let wc := w.filter keepAlnumHyphen
    !(wc.length < 3) && !COMMON_WORDS.contains (lowerStr wc) &&
      is_candidate_single_word wc)

/-- Transcription of `generate_ngrams` of ontology.py: contiguous n-grams joined by spaces. -/
def generate_ngrams (tokens : List Str) (minN maxN : Nat) : List Str :=
  (List.range' minN (maxN - minN + 1)).flatMap fun n =>
    if tokens.length < n then []
    else (List.range (tokens.length - n + 1)).map fun i =>
      joinSpace ((tokens.drop i).take n)

/-- Transcription of `phrase_ngrams_for_ontology` of ontology.py: the full phrase (if it is a
candidate) followed by the filtered 2- and 3-grams. -/
def phrase_ngrams_for_ontology (phrase_text : Str) : List Str :=
  let base := if is_candidate_phrase_full phrase_text then [phrase_text] else []
  let tokens := words_from_phrase_text phrase_text
  if tokens.length < 2 then base
  else
    base ++ (generate_ngrams tokens 2 3).filter fun ng =>
      !phrase_is_procedural_or_metadata ng && !phrase_is_citation ng &&
        (words_from_phrase_text ng).any (fun w =>
          let wc := w.filter keepAlnumHyphen
          !(wc.length < 3) && !COMMON_WORDS.contains (lowerStr wc) &&
            is_candidate_single_word wc)

/-! ## ontology.py — the OLS4 lookup -/

/-- Failure modes of the external OLS4 call: network errors and timeouts from
`requests.get`, `raise_for_status` on a non-2xx code, and `r.json()` on a
malformed body.  All are caught by the bare `except Exception` in the source. -/
inductive NetError
  | transport
  | timeout
  | badStatus (code : Nat)
  | malformedBody
deriving DecidableEq

/-- One OLS4 result record (`label`, `description`, `iri`, `ontology_prefix`);
a missing or null description is modelled as the empty list, exactly as the
source's `doc.get("description") or []`.  `srcOntology` carries the record's
`ontology_prefix` field. -/
structure OlsDoc where
  label : Str
  description : List Str
  iri : Option Str
  srcOntology : Str
deriving DecidableEq

/-- The parsed OLS4 response body: `data["response"]["docs"]` (missing pieces
collapse to the empty list, as with the source's chained `.get` defaults). -/
structure OlsResponse where
  docs : List OlsDoc
deriving DecidableEq

/-- A successful lookup result as built by `lookup_term_ols4`. -/
structure OlsHit where
  label : Str
  definition : Str
  iri : Option Str
deriving DecidableEq

/-- Evaluation of `definition_list[0].strip() if definition_list else ""` in the source. -/
def docDefinition (d : OlsDoc) : Str :=
  match d.description with
  | [] => []
  | x :: _ => pyStripWs x

/-- The hit dictionary built for a selected doc. -/
def mkHit (d : OlsDoc) : OlsHit := ⟨d.label, docDefinition d, d.iri⟩

/-- Stage 1 of `lookup_term_ols4`: first doc whose label (nonempty) equals the
lowercased term exactly and whose definition is nonempty. -/
def stage1Find (term_lower : Str) : List OlsDoc → Option OlsHit
  | [] => none
  | d :: ds =>
    if !d.label.isEmpty && lowerStr d.label == term_lower && !(docDefinition d).isEmpty
    then some (mkHit d)
    else stage1Find term_lower ds

/-- Stage 2 of `lookup_term_ols4`: first doc whose label (nonempty) contains the
lowercased term as a substring and whose definition is nonempty. -/
def stage2Find (term_lower : Str) : List OlsDoc → Option OlsHit
  | [] => none
  | d :: ds =>
    if !d.label.isEmpty && strContains (lowerStr d.label) term_lower &&
       !(docDefinition d).isEmpty
    then some (mkHit d)
    else stage2Find term_lower ds

/-- Transcription of `lookup_term_ols4` of ontology.py, with the network interaction made
explicit: the `Except` input is the outcome of the guarded region
(`requests.get` / `raise_for_status` / `r.json()`), and any exception is
caught and turned into `none` by the source's `except Exception: return None`. -/
def lookup_term_ols4 (term : Str) (net : Except NetError OlsResponse) : Option OlsHit :=
  match net with
  | .error _ => none
  | .ok resp =>
    if resp.docs.isEmpty then none
    else
      let term_lower := lowerStr term
      match stage1Find term_lower resp.docs with
      | some h => some h
      | none => stage2Find term_lower resp.docs

/-! ## Sorting infrastructure (Python `sorted` and `list.sort`) -/

/-- Insert `x` into `l` before the first element `y` with `le x y`; together
with `pySort` this is a stable insertion sort, matching Python's stable sort. -/
def pyInsert (le : α → α → Bool) (x : α) : List α → List α
  | [] => [x]
  | y :: ys => if le x y then x :: y :: ys else y :: pyInsert le x ys

/-- Stable sort by the Boolean relation `le`. -/
def pySort (le : α → α → Bool) : List α → List α
  | [] => []
  | x :: xs => pyInsert le x (pySort le xs)

/-- Strict lexicographic comparison of strings by code point (Python `<`). -/
def strLt : Str → Str → Bool
  | [], [] => false
  | [], _ :: _ => true
  | _ :: _, [] => false
  | a :: as, b :: bs => if a < b then true else if b < a then false else strLt as bs

/-- Python string `<=`, as the negation of the reversed strict comparison. -/
def strLe (s t : Str) : Bool := !strLt t s

/-! ## ontology.py — `extract_ontology_terms` -/

/-- The word and phrase surface texts of one page object, i.e. the `text`
fields read by `extract_ontology_terms` from `page["words"]` / `page["phrases"]`. -/
structure PageIn where
  words : List Str
  phrases : List Str
deriving DecidableEq

/-- Candidate collection (step 1 of `extract_ontology_terms`): accepted single
words plus phrase n-grams, with multiplicity (set semantics are applied by
`sortedCandidates`). -/
def collectRaw (pages : List PageIn) : List Str :=
  pages.flatMap fun pg =>
    pg.words.filter (fun raw => !raw.isEmpty && is_candidate_single_word raw) ++
      pg.phrases.flatMap (fun pt => if pt.isEmpty then [] else phrase_ngrams_for_ontology pt)

/-- Model of `sorted(candidate_terms)` for the collected set: distinct elements in
code-point order. -/
def sortedCandidates (pages : List PageIn) : List Str :=
  pySort strLe (collectRaw pages).dedup

/-- The candidate set after the cap (step 2): `set(islice(sorted(...), MAX))`
when over the cap, otherwise unchanged. -/
def cappedTermSet (pages : List PageIn) : List Str :=
  let s := sortedCandidates pages
  if MAX_TERMS_PER_DOCUMENT < s.length then s.take MAX_TERMS_PER_DOCUMENT else s

/-- Model of `sorted(candidate_terms)` as iterated by the lookup loop (step 3). -/
def submittedTerms (pages : List PageIn) : List Str :=
  pySort strLe (cappedTermSet pages).dedup

/-- Transcription of `extract_ontology_terms` of ontology.py: the resulting `found_terms`
mapping in insertion order, with the network call abstracted as `lookupFn`
(one `lookup_term_ols4` outcome per term). -/
def extract_ontology_terms (lookupFn : Str → Option OlsHit) (pages : List PageIn) :
    List (Str × OlsHit) :=
  (submittedTerms pages).filterMap fun t => (lookupFn t).map fun h => (t, h)

/-! ## extract_text.py — data model and pipeline -/

/-- A normalized positioned word (floats modelled as rationals). -/
structure Word where
  text : Str
  x : ℚ
  y : ℚ
  width : ℚ
  height : ℚ
  page : Nat
deriving DecidableEq

/-- A raw pdfplumber word record (`text`, `x0`, `top`, `x1`, `bottom`). -/
structure RawWord where
  text : Str
  x0 : ℚ
  top : ℚ
  x1 : ℚ
  bottom : ℚ
deriving DecidableEq

/-- Per-page render metadata used to derive the scale factors. -/
structure PageMeta where
  rendered_width : ℚ
  rendered_height : ℚ
  pdf_width : ℚ
  pdf_height : ℚ
deriving DecidableEq

/-- A reconstructed phrase: its space-joined text and its member words. -/
structure Phrase where
  text : Str
  words : List Word
deriving DecidableEq

/-- Python `round` (banker's rounding, half to even) on a rational. -/
def pyRound (q : ℚ) : ℤ :=
  let f : ℤ := ⌊q⌋
  let r : ℚ := q - f
  if r < 1/2 then f
  else if 1/2 < r then f + 1
  else if f % 2 = 0 then f else f + 1

/-- The per-page reading-order sort key `(round(w["y"] / 5), w["x"])`. -/
def key2 (w : Word) : ℤ × ℚ := (pyRound (w.y / 5), w.x)

/-- Lexicographic `<=` on the per-page key. -/
def lex2 (a b : ℤ × ℚ) : Prop :=
  a.1 < b.1 ∨ (a.1 = b.1 ∧ a.2 ≤ b.2)

instance (a b : ℤ × ℚ) : Decidable (lex2 a b) :=
  inferInstanceAs (Decidable (a.1 < b.1 ∨ (a.1 = b.1 ∧ a.2 ≤ b.2)))

/-- Boolean form of the per-page key comparison. -/
def wordLe2 (a b : Word) : Bool := decide (lex2 (key2 a) (key2 b))

/-- The global sort key `(w["page"], round(w["y"] / 5), w["x"])`. -/
def key3 (w : Word) : Nat × ℤ × ℚ := (w.page, pyRound (w.y / 5), w.x)

/-- Lexicographic `<=` on the global key. -/
def lex3 (a b : Nat × ℤ × ℚ) : Prop :=
  a.1 < b.1 ∨ (a.1 = b.1 ∧ (a.2.1 < b.2.1 ∨ (a.2.1 = b.2.1 ∧ a.2.2 ≤ b.2.2)))

instance (a b : Nat × ℤ × ℚ) : Decidable (lex3 a b) :=
  inferInstanceAs (Decidable
    (a.1 < b.1 ∨ (a.1 = b.1 ∧ (a.2.1 < b.2.1 ∨ (a.2.1 = b.2.1 ∧ a.2.2 ≤ b.2.2)))))

/-- Boolean form of the global key comparison. -/
def wordLe3 (a b : Word) : Bool := decide (lex3 (key3 a) (key3 b))

/-- Normalization of one raw word record (the dict built at extract_text.py:77). -/
def normalizeWord (sx sy : ℚ) (page : Nat) (w : RawWord) : Word :=
  ⟨w.text, w.x0 * sx, w.top * sy, (w.x1 - w.x0) * sx, (w.bottom - w.top) * sy, page⟩

/-- The hyphen-merge pass of extract_text.py (lines 90–101): when a word's text
ends with a hyphen and a following word exists, concatenate the two texts
(stripping the trailing hyphens of the first) and advance past both. -/
def hyphenMerge : List Word → List Word
  | [] => []
  | [w] => [w]
  | w :: nxt :: rest =>
    if endsHyphen w.text then
      { w with text := rstripHyphens w.text ++ nxt.text } :: hyphenMerge rest
    else
      w :: hyphenMerge (nxt :: rest)

/-- One page's contribution to `all_words`: normalize (dropping empty texts),
sort by `(round(y/5), x)`, then hyphen-merge. -/
def pageWords (idx : Nat) (meta : PageMeta) (raws : List RawWord) : List Word :=
  let sx := meta.rendered_width / meta.pdf_width
  let sy := meta.rendered_height / meta.pdf_height
  hyphenMerge (pySort wordLe2
    (((raws.filter (fun w => !w.text.isEmpty)).map (normalizeWord sx sy (idx + 1)))))

/-- The globally sorted `all_words` list (extract_text.py:111). -/
def pipelineWords (pages : List (PageMeta × List RawWord)) : List Word :=
  pySort wordLe3 ((pages.enum.map fun p => pageWords p.1 p.2.1 p.2.2).flatten)

/-- Transcription of `is_garbage_phrase` of extract_text.py (the reject Boolean; the reason
string of the source's pair result is not used by the caller's branch). -/
def is_garbage_phrase (text : Str) : Bool :=
  let t := pyStripWs (lowerStr text)
  if t.isEmpty then true
  else if strContains t (str r"creative commons") || strContains t (str r"attribution")
    then true
  else if strContains t (str r"doi") || strContains t (str r"http") then true
  else if strContains t (str r"@") then true
  else false

/-- The token cleaning at extract_text.py:125: `raw.lower().strip(".,;:()[]{}")`. -/
def cleanTok (raw : Str) : Str :=
  pyStripSet ['.', ',', ';', ':', '(', ')', '[', ']', Char.ofNat 123, Char.ofNat 125]
    (lowerStr raw)

/-- The inner expansion loop of the greedy phrase extraction: collect up to `k`
further words until a stopword, returning the collected words and the rest. -/
def takeRun (stop : Str → Bool) : Nat → List Word → List Word × List Word
  | 0, ws => ([], ws)
  | _ + 1, [] => ([], [])
  | k + 1, w :: rest =>
    if stop (cleanTok w.text) then ([], w :: rest)
    else
      let p := takeRun stop k rest
      (w :: p.1, p.2)

/-- The greedy stopword-based phrase extraction of extract_text.py (lines
114–161), driven by a fuel counter bounding the number of outer iterations. -/
def greedyPhrases (stop : Str → Bool) : Nat → List Word → List Phrase
  | 0, _ => []
  | _ + 1, [] => []
  | fuel + 1, w :: rest =>
    if stop (cleanTok w.text) then greedyPhrases stop fuel rest
    else
      let p := takeRun stop 4 rest
      let ws := w :: p.1
      let ptext := pyStripWs (joinSpace (ws.map Word.text))
      if is_garbage_phrase (lowerStr ptext) then greedyPhrases stop fuel p.2
      else ⟨ptext, ws⟩ :: greedyPhrases stop fuel p.2

/-- Phrase extraction over a word list (enough fuel for the whole list). -/
def extractPhrases (stop : Str → Bool) (ws : List Word) : List Phrase :=
  greedyPhrases stop ws.length ws

/-- The full phrase-reconstruction pipeline of extract_text.py: per-page
normalize, sort and hyphen-merge; global sort; greedy phrase grouping.
`stop` is membership in the STOPWORDS list loaded from stopwords.txt. -/
def reconstructPhrases (stop : Str → Bool) (pages : List (PageMeta × List RawWord)) :
    List Phrase :=
  extractPhrases stop (pipelineWords pages)

/-! ## server.py — the annotation merge step (extract endpoint, step 4) -/

/-- A word record as mutated by the merge step: the original word plus the
`definition` and `source` entries the merge may add (`none` = key absent). -/
structure AWord where
  word : Word
  definition : Option Str
  source : Option Str
deriving DecidableEq

/-- A phrase record whose member words can carry merge annotations. -/
structure APhrase where
  text : Str
  words : List AWord
deriving DecidableEq

/-- A word not yet annotated. -/
def plainAWord (w : Word) : AWord := ⟨w, none, none⟩

/-- A resolver hit as a Python dict: association list over its keys.  The
`iri` value is represented by its string content (the merge step never reads
the `iri` key, only `label`/`definition`/`source`, so a null iri is harmless). -/
def HitDict : Type := List (Str × Str)

/-- The dict `{"label": ..., "definition": ..., "iri": ...}` built by
`lookup_term_ols4` for a hit. -/
def hitEntries (h : OlsHit) : HitDict :=
  [(str r"label", h.label), (str r"definition", h.definition),
   (str r"iri", (h.iri).getD [])]

/-- Python `key in dict`. -/
def dictContains (d : List (Str × Str)) (k : Str) : Bool := d.any fun e => e.1 == k

/-- Python `dict.get(key)` (no default): `none` when the key is absent. -/
def dictLookup (d : List (Str × Str)) (k : Str) : Option Str :=
  (d.find? fun e => e.1 == k).map Prod.snd

/-- Python `dict[key]`: raises `KeyError(key)` when the key is absent. -/
def dictGetItem (d : List (Str × Str)) (k : Str) : Except Str Str :=
  match d.find? fun e => e.1 == k with
  | some e => .ok e.2
  | none => .error k

/-- The table handed to the merge step: `found_terms` with each hit as a dict. -/
def resolverTable (lookupFn : Str → Option OlsHit) (pages : List PageIn) :
    List (Str × HitDict) :=
  (extract_ontology_terms lookupFn pages).map fun p => (p.1, hitEntries p.2)

/-- The phrase-level merge loop of server.py (lines 89–111).  For each phrase,
look up its stripped text; on a hit containing a `definition` key, write
`hit["definition"]` and `hit["source"]` onto every member word — the latter
access raises `KeyError` when the hit has no `source` key.  The
`word_fallback` branch only fires for hits without a `definition` key, which
the resolver never produces; on such hits it assigns per-word entries, and is
modelled as the identity on the phrase (no resolver table reaches it). -/
def mergePhraseDefs (table : List (Str × HitDict)) (phrases : List APhrase) :
    Except Str (List APhrase) :=
  phrases.mapM fun ph =>
    let k := pyStripWs ph.text
    match (table.find? fun e => e.1 == k).map Prod.snd with
    | none => pure ph
    | some hit =>
      if dictContains hit (str r"definition") then do
        let ws ← ph.words.mapM fun aw => do
          let d ← dictGetItem hit (str r"definition")
          let s ← dictGetItem hit (str r"source")
          pure (⟨aw.word, some d, some s⟩ : AWord)
        pure (⟨ph.text, ws⟩ : APhrase)
      else if dictLookup hit (str r"source") == some (str r"word_fallback") then
        pure ph
      else pure ph

/-! ## Specification-side definitions (for refinement comparisons) -/

/-- Modelled from the spec (§4.2): `same_line` — the vertical distance of two
consecutive words is below 5 document units. -/
def spec_same_line (a b : Word) : Prop := |a.y - b.y| < 5

/-- Modelled from the spec (§4.2): `adjacent` — the horizontal gap
`x_cur − (x_prev + width_prev)` lies in `[-3, 40)`. -/
def spec_adjacent (a b : Word) : Prop :=
  -3 ≤ b.x - (a.x + a.width) ∧ b.x - (a.x + a.width) < 40

instance (a b : Word) : Decidable (spec_same_line a b) :=
  inferInstanceAs (Decidable (|a.y - b.y| < 5))

instance (a b : Word) : Decidable (spec_adjacent a b) :=
  inferInstanceAs (Decidable
    (-3 ≤ b.x - (a.x + a.width) ∧ b.x - (a.x + a.width) < 40))

/-- Modelled from the spec (§4.4, external ontology search contract): stage-2
selection that prefers, among the candidates whose label contains the query
and whose definition is nonempty, those whose source ontology is in the fixed
allow-list, before falling back to the first such candidate. -/
def spec_stage2_allowlist (allow : List Str) (term_lower : Str) (docs : List OlsDoc) :
    Option OlsHit :=
  let quals := docs.filter fun d =>
    !d.label.isEmpty && strContains (lowerStr d.label) term_lower &&
      !(docDefinition d).isEmpty
  match quals.find? (fun d => allow.contains ( OlsDoc.srcOntology d)) with
  | some d => some (mkHit d)
  | none => quals.head?.map mkHit

/-- Modelled from the spec (§4.4): the full two-stage selection with the
allow-list preference in stage 2, as the claim describes the lookup. -/
def spec_lookup_allowlist (allow : List Str) (term : Str) (docs : List OlsDoc) :
    Option OlsHit :=
  let term_lower := lowerStr term
  match stage1Find term_lower docs with
  | some h => some h
  | none => spec_stage2_allowlist allow term_lower docs

/-! ## Helper lemmas: insertion sort -/

theorem mem_pyInsert (le : α → α → Bool) (x a : α) :
    ∀ l : List α, a ∈ pyInsert le x l ↔ a = x ∨ a ∈ l
  | [] => by simp [pyInsert]
  | y :: ys => by
    by_cases h : le x y = true
    · rw [pyInsert, if_pos h]
      simp [List.mem_cons]
    · rw [pyInsert, if_neg h]
      simp only [List.mem_cons, mem_pyInsert le x a ys]
      tauto

theorem pyInsert_perm (le : α → α → Bool) (x : α) :
    ∀ l : List α, List.Perm (pyInsert le x l) (x :: l)
  | [] => List.Perm.refl _
  | y :: ys => by
    by_cases h : le x y = true
    · rw [pyInsert, if_pos h]
    · rw [pyInsert, if_neg h]
      exact ((pyInsert_perm le x ys).cons y).trans (List.Perm.swap x y ys)

theorem pySort_perm (le : α → α → Bool) : ∀ l : List α, List.Perm (pySort le l) l
  | [] => List.Perm.refl _
  | x :: xs => (pyInsert_perm le x (pySort le xs)).trans ((pySort_perm le xs).cons x)

theorem pairwise_pyInsert (le : α → α → Bool)
    (total : ∀ a b, le a b = true ∨ le b a = true)
    (trans : ∀ a b c, le a b = true → le b c = true → le a c = true) (x : α) :
    ∀ l : List α, l.Pairwise (fun a b => le a b = true) →
      (pyInsert le x l).Pairwise (fun a b => le a b = true)
  | [], _ => by simp [pyInsert]
  | y :: ys, h => by
    rw [List.pairwise_cons] at h
    obtain ⟨hy, hys⟩ := h
    by_cases hxy : le x y = true
    · rw [pyInsert, if_pos hxy]
      refine List.pairwise_cons.mpr ⟨?_, List.pairwise_cons.mpr ⟨hy, hys⟩⟩
      intro b hb
      rcases List.mem_cons.mp hb with hb | hb
      · exact hb ▸ hxy
      · exact trans x y b hxy (hy b hb)
    · rw [pyInsert, if_neg hxy]
      have hyx : le y x = true := (total x y).resolve_left hxy
      refine List.pairwise_cons.mpr ⟨?_, pairwise_pyInsert le total trans x ys hys⟩
      intro b hb
      rcases (mem_pyInsert le x b ys).mp hb with hb | hb
      · exact hb ▸ hyx
      · exact hy b hb

theorem pySort_pairwise (le : α → α → Bool)
    (total : ∀ a b, le a b = true ∨ le b a = true)
    (trans : ∀ a b c, le a b = true → le b c = true → le a c = true) :
    ∀ l : List α, (pySort le l).Pairwise (fun a b => le a b = true)
  | [] => List.Pairwise.nil
  | x :: xs =>
    pairwise_pyInsert le total trans x (pySort le xs) (pySort_pairwise le total trans xs)

theorem pySort_eq_self (le : α → α → Bool) :
    ∀ l : List α, l.Pairwise (fun a b => le a b = true) → pySort le l = l
  | [], _ => rfl
  | x :: xs, h => by
    rw [List.pairwise_cons] at h
    rw [pySort, pySort_eq_self le xs h.2]
    cases xs with
    | nil => rfl
    | cons y ys => rw [pyInsert, if_pos (h.1 y (List.mem_cons_self y ys))]

/-! ## Helper lemmas: the string order -/

theorem strLt_irrefl : ∀ s : Str, strLt s s = false
  | [] => rfl
  | a :: as => by rw [strLt, if_neg (lt_irrefl a), if_neg (lt_irrefl a)]
                  exact strLt_irrefl as

theorem strLt_trans :
    ∀ s t u : Str, strLt s t = true → strLt t u = true → strLt s u = true
  | [], [], _, h, _ => by simp [strLt] at h
  | [], _ :: _, [], _, h => by simp [strLt] at h
  | [], _ :: _, _ :: _, _, _ => rfl
  | _ :: _, [], _, h, _ => by simp [strLt] at h
  | _ :: _, _ :: _, [], _, h => by simp [strLt] at h
  | a :: as, b :: bs, c :: cs, h1, h2 => by
    by_cases hab : a < b
    · by_cases hbc : b < c
      · rw [strLt, if_pos (lt_trans hab hbc)]
      · by_cases hcb : c < b
        · rw [strLt, if_neg hbc, if_pos hcb] at h2
          exact absurd h2 (by simp)
        · have hbc' : b = c := le_antisymm (not_lt.mp hcb) (not_lt.mp hbc)
          subst hbc'
          rw [strLt, if_pos hab]
    · by_cases hba : b < a
      · rw [strLt, if_neg hab, if_pos hba] at h1
        exact absurd h1 (by simp)
      · have hab' : a = b := le_antisymm (not_lt.mp hba) (not_lt.mp hab)
        subst hab'
        rw [strLt, if_neg (lt_irrefl a), if_neg (lt_irrefl a)] at h1
        by_cases hac : a < c
        · rw [strLt, if_pos hac]
        · by_cases hca : c < a
          · rw [strLt, if_neg hac, if_pos hca] at h2
            exact absurd h2 (by simp)
          · have : a = c := le_antisymm (not_lt.mp hca) (not_lt.mp hac)
            subst this
            rw [strLt, if_neg (lt_irrefl a), if_neg (lt_irrefl a)] at h2 ⊢
            exact strLt_trans as bs cs h1 h2

theorem strLt_connex : ∀ s t : Str, s ≠ t → strLt s t = true ∨ strLt t s = true
  | [], [], h => absurd rfl h
  | [], _ :: _, _ => Or.inl rfl
  | _ :: _, [], _ => Or.inr rfl
  | a :: as, b :: bs, h => by
    by_cases hab : a < b
    · left; rw [strLt, if_pos hab]
    · by_cases hba : b < a
      · right; rw [strLt, if_pos hba]
      · have hab' : a = b := le_antisymm (not_lt.mp hba) (not_lt.mp hab)
        subst hab'
        have hst : as ≠ bs := fun hh => h (hh ▸ rfl)
        rcases strLt_connex as bs hst with hh | hh
        · left; rw [strLt, if_neg (lt_irrefl a), if_neg (lt_irrefl a)]; exact hh
        · right; rw [strLt, if_neg (lt_irrefl a), if_neg (lt_irrefl a)]; exact hh

theorem strLt_asymm (s t : Str) (h : strLt s t = true) : strLt t s = false := by
  by_contra hc
  have h2 : strLt t s = true := by
    cases hts : strLt t s
    · exact absurd hts hc
    · rfl
  have := strLt_trans s t s h h2
  rw [strLt_irrefl] at this
  exact absurd this (by simp)

theorem strLe_total : ∀ s t : Str, strLe s t = true ∨ strLe t s = true := by
  intro s t
  cases h : strLt t s
  · left; rw [strLe, h]; rfl
  · right; rw [strLe, strLt_asymm t s h]; rfl

theorem strLe_trans :
    ∀ s t u : Str, strLe s t = true → strLe t u = true → strLe s u = true := by
  intro s t u h1 h2
  rw [strLe] at h1 h2 ⊢
  cases hus : strLt u s
  · rfl
  · exfalso
    by_cases hut : u = t
    · subst hut
      rw [hus] at h1
      exact absurd h1 (by simp)
    · rcases strLt_connex u t hut with hh | hh
      · rw [hh] at h2
        exact absurd h2 (by simp)
      · have := strLt_trans t u s hh hus
        rw [this] at h1
        exact absurd h1 (by simp)

/-! ## Helper lemmas: the word sort keys -/

theorem lex3_total (a b : Nat × ℤ × ℚ) : lex3 a b ∨ lex3 b a := by
  unfold lex3
  rcases lt_trichotomy a.1 b.1 with h | h | h
  · exact Or.inl (Or.inl h)
  · rcases lt_trichotomy a.2.1 b.2.1 with h2 | h2 | h2
    · exact Or.inl (Or.inr ⟨h, Or.inl h2⟩)
    · rcases le_total a.2.2 b.2.2 with h3 | h3
      · exact Or.inl (Or.inr ⟨h, Or.inr ⟨h2, h3⟩⟩)
      · exact Or.inr (Or.inr ⟨h.symm, Or.inr ⟨h2.symm, h3⟩⟩)
    · exact Or.inr (Or.inr ⟨h.symm, Or.inl h2⟩)
  · exact Or.inr (Or.inl h)

theorem lex3_trans (a b c : Nat × ℤ × ℚ) (h1 : lex3 a b) (h2 : lex3 b c) : lex3 a c := by
  unfold lex3 at *
  rcases h1 with h1 | ⟨e1, h1⟩
  · rcases h2 with h2 | ⟨e2, _⟩
    · exact Or.inl (lt_trans h1 h2)
    · exact Or.inl (e2 ▸ h1)
  · rcases h2 with h2 | ⟨e2, h2⟩
    · exact Or.inl (e1 ▸ h2)
    · refine Or.inr ⟨e1.trans e2, ?_⟩
      rcases h1 with h1 | ⟨f1, h1⟩
      · rcases h2 with h2 | ⟨f2, _⟩
        · exact Or.inl (lt_trans h1 h2)
        · exact Or.inl (f2 ▸ h1)
      · rcases h2 with h2 | ⟨f2, h2⟩
        · exact Or.inl (f1 ▸ h2)
        · exact Or.inr ⟨f1.trans f2, le_trans h1 h2⟩

theorem wordLe3_total (a b : Word) : wordLe3 a b = true ∨ wordLe3 b a = true := by
  rcases lex3_total (key3 a) (key3 b) with h | h
  · exact Or.inl (decide_eq_true h)
  · exact Or.inr (decide_eq_true h)

theorem wordLe3_trans (a b c : Word) (h1 : wordLe3 a b = true) (h2 : wordLe3 b c = true) :
    wordLe3 a c = true :=
  decide_eq_true (lex3_trans _ _ _ (of_decide_eq_true h1) (of_decide_eq_true h2))

theorem wordLe3_page (a b : Word) (h : wordLe3 a b = true) : a.page ≤ b.page := by
  have hl := of_decide_eq_true h
  unfold lex3 key3 at hl
  rcases hl with hl | ⟨e, _⟩
  · exact le_of_lt hl
  · exact le_of_eq e

theorem lex2_total (a b : ℤ × ℚ) : lex2 a b ∨ lex2 b a := by
  unfold lex2
  rcases lt_trichotomy a.1 b.1 with h | h | h
  · exact Or.inl (Or.inl h)
  · rcases le_total a.2 b.2 with h2 | h2
    · exact Or.inl (Or.inr ⟨h, h2⟩)
    · exact Or.inr (Or.inr ⟨h.symm, h2⟩)
  · exact Or.inr (Or.inl h)

theorem lex2_trans (a b c : ℤ × ℚ) (h1 : lex2 a b) (h2 : lex2 b c) : lex2 a c := by
  unfold lex2 at *
  rcases h1 with h1 | ⟨e1, h1⟩
  · rcases h2 with h2 | ⟨e2, _⟩
    · exact Or.inl (lt_trans h1 h2)
    · exact Or.inl (e2 ▸ h1)
  · rcases h2 with h2 | ⟨e2, h2⟩
    · exact Or.inl (e1 ▸ h2)
    · exact Or.inr ⟨e1.trans e2, le_trans h1 h2⟩

theorem wordLe2_total (a b : Word) : wordLe2 a b = true ∨ wordLe2 b a = true := by
  rcases lex2_total (key2 a) (key2 b) with h | h
  · exact Or.inl (decide_eq_true h)
  · exact Or.inr (decide_eq_true h)

theorem wordLe2_trans (a b c : Word) (h1 : wordLe2 a b = true) (h2 : wordLe2 b c = true) :
    wordLe2 a c = true :=
  decide_eq_true (lex2_trans _ _ _ (of_decide_eq_true h1) (of_decide_eq_true h2))

/-! ## Helper lemmas: the greedy phrase extraction -/

theorem takeRun_append (stop : Str → Bool) :
    ∀ (k : Nat) (ws : List Word), (takeRun stop k ws).1 ++ (takeRun stop k ws).2 = ws
  | 0, _ => rfl
  | _ + 1, [] => rfl
  | k + 1, w :: rest => by
    rw [takeRun]
    by_cases h : stop (cleanTok w.text) = true
    · rw [if_pos h]
      rfl
    · rw [if_neg h]
      show w :: (takeRun stop k rest).1 ++ (takeRun stop k rest).2 = w :: rest
      rw [List.cons_append, takeRun_append stop k rest]

theorem takeRun_rest_suffix (stop : Str → Bool) (k : Nat) (ws : List Word) :
    List.IsSuffix (takeRun stop k ws).2 ws :=
  ⟨(takeRun stop k ws).1, takeRun_append stop k ws⟩

theorem takeRun_length (stop : Str → Bool) :
    ∀ (k : Nat) (ws : List Word), (takeRun stop k ws).1.length ≤ k
  | 0, _ => Nat.le_refl 0
  | _ + 1, [] => Nat.zero_le _
  | k + 1, w :: rest => by
    rw [takeRun]
    by_cases h : stop (cleanTok w.text) = true
    · rw [if_pos h]; exact Nat.zero_le _
    · rw [if_neg h]
      show (w :: (takeRun stop k rest).1).length ≤ k + 1
      rw [List.length_cons]
      exact Nat.succ_le_succ (takeRun_length stop k rest)

/-- Every phrase emitted by the greedy extraction starts at some word `w`,
contains at most four further words, and its word list is a contiguous slice
of the input word list. -/
theorem greedyPhrases_mem (stop : Str → Bool) :
    ∀ (fuel : Nat) (ws : List Word) (p : Phrase), p ∈ greedyPhrases stop fuel ws →
      ∃ w more, p.words = w :: more ∧ more.length ≤ 4 ∧ (w :: more) <:+: ws
  | 0, _, _, h => absurd h (List.not_mem_nil _)
  | _ + 1, [], _, h => absurd h (List.not_mem_nil _)
  | fuel + 1, w :: rest, p, h => by
    rw [greedyPhrases] at h
    by_cases hstop : stop (cleanTok w.text) = true
    · rw [if_pos hstop] at h
      obtain ⟨w2, more, hw, hlen, hinf⟩ := greedyPhrases_mem stop fuel rest p h
      exact ⟨w2, more, hw, hlen, hinf.trans (List.suffix_cons w rest).isInfix⟩
    · rw [if_neg hstop] at h
      by_cases hg : is_garbage_phrase
          (lowerStr (pyStripWs (joinSpace ((w :: (takeRun stop 4 rest).1).map Word.text)))) = true
      · rw [if_pos hg] at h
        obtain ⟨w2, more, hw, hlen, hinf⟩ :=
          greedyPhrases_mem stop fuel (takeRun stop 4 rest).2 p h
        have hsuf : (takeRun stop 4 rest).2 <:+ w :: rest :=
          List.IsSuffix.trans (takeRun_rest_suffix stop 4 rest) (List.suffix_cons w rest)
        exact ⟨w2, more, hw, hlen, hinf.trans hsuf.isInfix⟩
      · rw [if_neg hg] at h
        rcases List.mem_cons.mp h with hp | hp
        · refine ⟨w, (takeRun stop 4 rest).1, by rw [hp], takeRun_length stop 4 rest, ?_⟩
          have hpre : (w :: (takeRun stop 4 rest).1) <+: w :: rest :=
            ⟨(takeRun stop 4 rest).2, by rw [List.cons_append, takeRun_append stop 4 rest]⟩
          exact hpre.isInfix
        · obtain ⟨w2, more, hw, hlen, hinf⟩ :=
            greedyPhrases_mem stop fuel (takeRun stop 4 rest).2 p hp
          have hsuf : (takeRun stop 4 rest).2 <:+ w :: rest :=
            List.IsSuffix.trans (takeRun_rest_suffix stop 4 rest) (List.suffix_cons w rest)
          exact ⟨w2, more, hw, hlen, hinf.trans hsuf.isInfix⟩

/-- Form of `greedyPhrases_mem` for the pipeline entry point. -/
theorem extractPhrases_mem (stop : Str → Bool) (ws : List Word) (p : Phrase)
    (h : p ∈ extractPhrases stop ws) :
    ∃ w more, p.words = w :: more ∧ more.length ≤ 4 ∧ (w :: more) <:+: ws :=
  greedyPhrases_mem stop ws.length ws p h

/-! ## Helper lemmas: the hyphen merge -/

theorem head?_append_left (u v : List α) (h : u ≠ []) : (u ++ v).head? = u.head? := by
  cases u with
  | nil => exact absurd rfl h
  | cons x xs => rfl

theorem head?_dropWhile (p : Char → Bool) :
    ∀ (l : List Char) (c : Char), (l.dropWhile p).head? = some c → p c = false
  | [], c, h => by simp [List.dropWhile] at h
  | x :: xs, c, h => by
    rw [List.dropWhile_cons] at h
    by_cases hx : p x = true
    · rw [if_pos hx] at h
      exact head?_dropWhile p xs c h
    · rw [if_neg hx] at h
      have : x = c := by
        simpa using h
      rw [← this]
      exact Bool.not_eq_true _ ▸ hx

theorem endsHyphen_rstrip (s : Str) : endsHyphen (rstripHyphens s) = false := by
  rw [endsHyphen, rstripHyphens, List.reverse_reverse]
  cases hh : (s.reverse.dropWhile fun c => c == '-').head? with
  | none => rfl
  | some c =>
    have := head?_dropWhile (fun c => c == '-') s.reverse c hh
    simpa using this

theorem endsHyphen_append (a b : Str) (hb : b ≠ []) :
    endsHyphen (a ++ b) = endsHyphen b := by
  rw [endsHyphen, endsHyphen, List.reverse_append,
    head?_append_left b.reverse a.reverse (by simpa using hb)]

/-- No element before the last one ends with a hyphen. -/
def NoMidHyphen : List Word → Prop
  | [] => True
  | [_] => True
  | a :: b :: l => endsHyphen a.text = false ∧ NoMidHyphen (b :: l)

theorem noMidHyphen_cons (x : Word) (l : List Word) (hx : endsHyphen x.text = false)
    (hl : NoMidHyphen l) : NoMidHyphen (x :: l) := by
  cases l with
  | nil => trivial
  | cons y ys => exact ⟨hx, hl⟩

/-- A list with no mid-list hyphen endings is a fixed point of the merge pass. -/
theorem hyphenMerge_of_noMid : ∀ l : List Word, NoMidHyphen l → hyphenMerge l = l
  | [], _ => rfl
  | [_], _ => rfl
  | a :: b :: l, h => by
    rw [hyphenMerge, if_neg (by rw [h.1]; exact Bool.false_ne_true)]
    rw [hyphenMerge_of_noMid (b :: l) h.2]

/-- When no two consecutive input words both end with a hyphen, the merge pass
output has no mid-list hyphen endings. -/
theorem hyphenMerge_noMid :
    ∀ l : List Word,
      l.Chain' (fun a b => endsHyphen a.text = false ∨ endsHyphen b.text = false) →
      NoMidHyphen (hyphenMerge l)
  | [], _ => trivial
  | [w], _ => trivial
  | w :: nxt :: rest, h => by
    obtain ⟨hwn, hrest⟩ := List.chain'_cons.mp h
    by_cases hw : endsHyphen w.text = true
    · rw [hyphenMerge, if_pos hw]
      have hn : endsHyphen nxt.text = false := by
        rcases hwn with hh | hh
        · rw [hw] at hh
          exact absurd hh (by simp)
        · exact hh
      have hmtext : endsHyphen (rstripHyphens w.text ++ nxt.text) = false := by
        by_cases hne : nxt.text = []
        · rw [hne, List.append_nil]
          exact endsHyphen_rstrip w.text
        · rw [endsHyphen_append _ _ hne]
          exact hn
      exact noMidHyphen_cons _ _ hmtext (hyphenMerge_noMid rest hrest.tail)
    · rw [hyphenMerge, if_neg hw]
      exact noMidHyphen_cons _ _ (Bool.not_eq_true _ ▸ hw)
        (hyphenMerge_noMid (nxt :: rest) hrest)

/-! ## Helper lemmas: the two-stage OLS4 selection -/

/-- The stage-1 acceptance condition as a predicate on docs. -/
def olsExactPred (term : Str) (d : OlsDoc) : Bool :=
  !d.label.isEmpty && lowerStr d.label == lowerStr term && !(docDefinition d).isEmpty

/-- The stage-2 acceptance condition as a predicate on docs. -/
def olsSubstrPred (term : Str) (d : OlsDoc) : Bool :=
  !d.label.isEmpty && strContains (lowerStr d.label) (lowerStr term) &&
    !(docDefinition d).isEmpty

theorem stage1Find_eq_find? (term : Str) :
    ∀ docs : List OlsDoc,
      stage1Find (lowerStr term) docs = (docs.find? (olsExactPred term)).map mkHit
  | [] => rfl
  | d :: ds => by
    by_cases h : olsExactPred term d = true
    · rw [stage1Find, if_pos (by rw [olsExactPred] at h; exact h),
        List.find?_cons_of_pos ds h]
      rfl
    · rw [stage1Find, if_neg (by rw [olsExactPred] at h; exact h),
        List.find?_cons_of_neg ds h]
      exact stage1Find_eq_find? term ds

theorem stage2Find_eq_find? (term : Str) :
    ∀ docs : List OlsDoc,
      stage2Find (lowerStr term) docs = (docs.find? (olsSubstrPred term)).map mkHit
  | [] => rfl
  | d :: ds => by
    by_cases h : olsSubstrPred term d = true
    · rw [stage2Find, if_pos (by rw [olsSubstrPred] at h; exact h),
        List.find?_cons_of_pos ds h]
      rfl
    · rw [stage2Find, if_neg (by rw [olsSubstrPred] at h; exact h),
        List.find?_cons_of_neg ds h]
      exact stage2Find_eq_find? term ds

/-! ## Claim theorems -/

/-- Claim C6: for every term, a transport error, timeout, non-2xx status or
malformed response body makes the lookup return no hit without propagating an
exception, and the failure is indistinguishable from a not-found result (the
empty-docs response).  In the embedding the guarded region's outcome is the
`Except` argument and the source's `except Exception: return None` is the
`.error` branch, so totality of the function is the no-propagation statement. -/
theorem C6_lookup_failure_is_no_hit (term : Str) (e : NetError) :
    lookup_term_ols4 term (Except.error e) = none ∧
      lookup_term_ols4 term (Except.error e) =
        lookup_term_ols4 term (Except.ok ⟨[]⟩) :=
  ⟨rfl, rfl⟩

/-- Claim C4 (counterexample): the code has no ontology allow-list preference.
For the query "otitis" against a first substring-matching candidate from a
non-biological source ("zz") and a second one from the Gene Ontology ("go",
the prefix the spec's own §8 example uses), the code returns the first
candidate while the claim's allow-list selection returns the second. -/
theorem C4_counterexample :
    lookup_term_ols4 (str r"otitis")
        (Except.ok ⟨[⟨str r"xotitisx", [str r"D1"], none, str r"zz"⟩,
                     ⟨str r"otitis media", [str r"Inflammation of the middle ear"],
                      some (str r"iri2"), str r"go"⟩]⟩) =
      some ⟨str r"xotitisx", str r"D1", none⟩ ∧
    spec_lookup_allowlist [str r"go"] (str r"otitis")
        [⟨str r"xotitisx", [str r"D1"], none, str r"zz"⟩,
         ⟨str r"otitis media", [str r"Inflammation of the middle ear"],
          some (str r"iri2"), str r"go"⟩] =
      some ⟨str r"otitis media", str r"Inflammation of the middle ear",
            some (str r"iri2")⟩ ∧
    (⟨str r"xotitisx", str r"D1", none⟩ : OlsHit) ≠
      ⟨str r"otitis media", str r"Inflammation of the middle ear", some (str r"iri2")⟩ := by
  refine ⟨by decide, by decide, by decide⟩

/-- Claim C4 (amended): the lookup returns the first candidate whose label
exactly equals the query case-insensitively with a non-empty definition;
otherwise the first candidate whose label contains the query
case-insensitively with a non-empty definition; otherwise no hit — with no
ontology-source preference and no further fallback. -/
theorem C4_two_stage_selection (term : Str) (docs : List OlsDoc) :
    lookup_term_ols4 term (Except.ok ⟨docs⟩) =
      match (docs.find? (olsExactPred term)).map mkHit with
      | some h => some h
      | none => (docs.find? (olsSubstrPred term)).map mkHit := by
  cases docs with
  | nil => rfl
  | cons d ds =>
    show (if (d :: ds).isEmpty then none
          else match stage1Find (lowerStr term) (d :: ds) with
               | some h => some h
               | none => stage2Find (lowerStr term) (d :: ds)) = _
    rw [if_neg (by simp [List.isEmpty])]
    rw [stage1Find_eq_find? term (d :: ds), stage2Find_eq_find? term (d :: ds)]

theorem sortedCandidates_pairwise (pages : List PageIn) :
    (sortedCandidates pages).Pairwise (fun a b => strLe a b = true) :=
  pySort_pairwise strLe strLe_total strLe_trans _

theorem sortedCandidates_nodup (pages : List PageIn) : (sortedCandidates pages).Nodup :=
  (pySort_perm strLe _).symm.nodup (List.nodup_dedup _)

/-- Claim C5: with more candidates than the cap (300), the submitted term list
is exactly the first 300 elements of the sorted candidate set, the resolved
table never exceeds 300 entries, and the excluded candidates are precisely the
deterministic tail of the sorted order. -/
theorem C5_cap_enforcement (lookupFn : Str → Option OlsHit) (pages : List PageIn)
    (h : MAX_TERMS_PER_DOCUMENT < (sortedCandidates pages).length) :
    submittedTerms pages = (sortedCandidates pages).take MAX_TERMS_PER_DOCUMENT ∧
    (extract_ontology_terms lookupFn pages).length ≤ MAX_TERMS_PER_DOCUMENT ∧
    (sortedCandidates pages).take MAX_TERMS_PER_DOCUMENT ++
        (sortedCandidates pages).drop MAX_TERMS_PER_DOCUMENT =
      sortedCandidates pages := by
  have hcap : cappedTermSet pages = (sortedCandidates pages).take MAX_TERMS_PER_DOCUMENT := by
    rw [cappedTermSet, if_pos h]
  have hnodup : (cappedTermSet pages).Nodup := by
    rw [hcap]
    exact List.Nodup.sublist (List.take_sublist _ _) (sortedCandidates_nodup pages)
  have hpw : (cappedTermSet pages).Pairwise (fun a b => strLe a b = true) := by
    rw [hcap]
    exact List.Pairwise.sublist (List.take_sublist _ _) (sortedCandidates_pairwise pages)
  have hsub : submittedTerms pages = (sortedCandidates pages).take MAX_TERMS_PER_DOCUMENT := by
    rw [submittedTerms, List.dedup_eq_self.mpr hnodup, pySort_eq_self strLe _ hpw, hcap]
  refine ⟨hsub, ?_, List.take_append_drop _ _⟩
  calc (extract_ontology_terms lookupFn pages).length
      ≤ (submittedTerms pages).length := List.length_filterMap_le _ _
    _ = ((sortedCandidates pages).take MAX_TERMS_PER_DOCUMENT).length := by rw [hsub]
    _ ≤ MAX_TERMS_PER_DOCUMENT := by
        rw [List.length_take]
        exact min_le_left _ _

/-- Digit character `chr(48 + k)`. -/
def dchar (k : Nat) : Char := Char.ofNat (48 + k)

/-- The n-th witness candidate word: "bio" + three decimal digits + nine x's
(length 15, accepted by the single-word filter through the "bio" prefix rule,
and of a length shared by no stopword or allow-listed lowercase term). -/
def genTerm (n : Nat) : Str :=
  ['b', 'i', 'o', dchar (n / 100 % 10), dchar (n / 10 % 10), dchar (n % 10),
   'x', 'x', 'x', 'x', 'x', 'x', 'x', 'x', 'x']

/-- A page carrying 301 distinct accepted candidate words. -/
def C5pages : List PageIn := [⟨(List.range 301).map genTerm, []⟩]

theorem isDigitA_dchar (k : Nat) (h : k < 10) : isDigitA (dchar k) = true := by
  interval_cases k <;> decide

theorem dchar_inj (a b : Nat) (ha : a < 10) (hb : b < 10) (h : dchar a = dchar b) :
    a = b := by
  interval_cases a <;> interval_cases b <;> first
    | rfl
    | exact absurd h (by decide)

theorem digit_le_nine (c : Char) (h : isDigitA c = true) : c ≤ Char.ofNat 57 := by
  rw [isDigitA, Bool.and_eq_true] at h
  exact of_decide_eq_true h.2

theorem isUpperA_digit (c : Char) (h : isDigitA c = true) : isUpperA c = false := by
  rw [isUpperA]
  cases hd : decide ((Char.ofNat 65 : Char) ≤ c)
  · rfl
  · exact absurd (le_trans (of_decide_eq_true hd) (digit_le_nine c h)) (by decide)

theorem isLowerA_digit (c : Char) (h : isDigitA c = true) : isLowerA c = false := by
  rw [isLowerA]
  cases hd : decide ((Char.ofNat 97 : Char) ≤ c)
  · rfl
  · exact absurd (le_trans (of_decide_eq_true hd) (digit_le_nine c h)) (by decide)

theorem keepAlnumHyphen_digit (c : Char) (h : isDigitA c = true) :
    keepAlnumHyphen c = true := by
  rw [keepAlnumHyphen, isAlnumA, h]
  simp

theorem toNat_digit_le (c : Char) (h : isDigitA c = true) : c.toNat ≤ 57 :=
  digit_le_nine c h

theorem toLower_digit (c : Char) (h : isDigitA c = true) : c.toLower = c := by
  have h57 := toNat_digit_le c h
  rw [Char.toLower]
  exact if_neg (by omega)

/-- A membership test against a fixed word list fails when no listed word has
the probe's length. -/
theorem contains_eq_false_of_length_ne (L : List Str) (s : Str)
    (h : ∀ t ∈ L, t.length ≠ s.length) : L.contains s = false := by
  induction L with
  | nil => rfl
  | cons t ts ih =>
    show (s == t || ts.contains s) = false
    rw [ih fun u hu => h u (List.mem_cons_of_mem t hu)]
    cases hts : s == t
    · rfl
    · exact absurd (congrArg List.length (eq_of_beq hts)).symm
        (h t (List.mem_cons_self t ts))

theorem accept_biodigit (a b c : Char) (ha : isDigitA a = true)
    (hb : isDigitA b = true) (hc : isDigitA c = true) :
    is_candidate_single_word
      ['b', 'i', 'o', a, b, c, 'x', 'x', 'x', 'x', 'x', 'x', 'x', 'x', 'x'] = true := by
  have tb : Char.toLower 'b' = 'b' := by decide
  have ti : Char.toLower 'i' = 'i' := by decide
  have tto : Char.toLower 'o' = 'o' := by decide
  have tx : Char.toLower 'x' = 'x' := by decide
  have hfil : List.filter keepAlnumHyphen
      ['b', 'i', 'o', a, b, c, 'x', 'x', 'x', 'x', 'x', 'x', 'x', 'x', 'x'] =
      ['b', 'i', 'o', a, b, c, 'x', 'x', 'x', 'x', 'x', 'x', 'x', 'x', 'x'] := by
    simp only [List.filter_cons, keepAlnumHyphen_digit a ha,
      keepAlnumHyphen_digit b hb, keepAlnumHyphen_digit c hc,
      (by decide : keepAlnumHyphen 'b' = true), (by decide : keepAlnumHyphen 'i' = true),
      (by decide : keepAlnumHyphen 'o' = true), (by decide : keepAlnumHyphen 'x' = true),
      if_true, List.filter_nil]
  have hlow : lowerStr ['b', 'i', 'o', a, b, c, 'x', 'x', 'x', 'x', 'x', 'x', 'x', 'x', 'x'] =
      ['b', 'i', 'o', a, b, c, 'x', 'x', 'x', 'x', 'x', 'x', 'x', 'x', 'x'] := by
    simp only [lowerStr, List.map_cons, List.map_nil, toLower_digit a ha,
      toLower_digit b hb, toLower_digit c hc, tb, ti, tto, tx]
  have hclen : ∀ t ∈ COMMON_WORDS, t.length ≠ 15 := by
    have hall : COMMON_WORDS.all (fun t => decide (t.length ≠ 15)) = true := by decide
    intro t ht
    exact of_decide_eq_true (List.all_eq_true.mp hall t ht)
  have halen : ∀ t ∈ ALLOWED_LOWER, t.length ≠ 15 := by
    have hall : ALLOWED_LOWER.all (fun t => decide (t.length ≠ 15)) = true := by decide
    intro t ht
    exact of_decide_eq_true (List.all_eq_true.mp hall t ht)
  have hcommon : COMMON_WORDS.contains
      ['b', 'i', 'o', a, b, c, 'x', 'x', 'x', 'x', 'x', 'x', 'x', 'x', 'x'] = false :=
    contains_eq_false_of_length_ne _ _ fun t ht => hclen t ht
  have hallowed : ALLOWED_LOWER.contains
      ['b', 'i', 'o', a, b, c, 'x', 'x', 'x', 'x', 'x', 'x', 'x', 'x', 'x'] = false :=
    contains_eq_false_of_length_ne _ _ fun t ht => halen t ht
  have hanyUp : List.any ['b', 'i', 'o', a, b, c, 'x', 'x', 'x', 'x', 'x', 'x', 'x', 'x', 'x']
      isUpperA = false := by
    simp only [List.any_cons, List.any_nil, isUpperA_digit a ha,
      isUpperA_digit b hb, isUpperA_digit c hc,
      (by decide : isUpperA 'b' = false), (by decide : isUpperA 'i' = false),
      (by decide : isUpperA 'o' = false), (by decide : isUpperA 'x' = false),
      Bool.or_false, Bool.or_self]
  have hdig : pyIsDigit ['b', 'i', 'o', a, b, c, 'x', 'x', 'x', 'x', 'x', 'x', 'x', 'x', 'x'] =
      false := by
    simp only [pyIsDigit, List.all_cons, (by decide : isDigitA 'b' = false),
      Bool.false_and, Bool.and_false, List.isEmpty_cons, Bool.not_false, Bool.true_and]
  have hauthor : looks_like_author_name
      ['b', 'i', 'o', a, b, c, 'x', 'x', 'x', 'x', 'x', 'x', 'x', 'x', 'x'] = false := by
    rw [looks_like_author_name]
    have h1 : capLowerPlus ['b', 'i', 'o', a, b, c, 'x', 'x', 'x', 'x', 'x', 'x', 'x', 'x', 'x'] =
        false := by
      simp +decide [capLowerPlus]
    have h2 : List.reverse ['b', 'i', 'o', a, b, c, 'x', 'x', 'x', 'x', 'x', 'x', 'x', 'x', 'x'] =
        ['x', 'x', 'x', 'x', 'x', 'x', 'x', 'x', 'x', c, b, a, 'o', 'i', 'b'] := by
      simp
    rw [h1, h2]
    simp +decide
  have hacr : is_acronym
      ['b', 'i', 'o', a, b, c, 'x', 'x', 'x', 'x', 'x', 'x', 'x', 'x', 'x'] = false := by
    rw [is_acronym, pyIsUpper, hanyUp]
    rfl
  have hlowr : pyIsLower
      ['b', 'i', 'o', a, b, c, 'x', 'x', 'x', 'x', 'x', 'x', 'x', 'x', 'x'] = true := by
    rw [pyIsLower, hanyUp]
    simp only [List.any_cons, (by decide : isLowerA 'b' = true), Bool.true_or,
      Bool.not_false, Bool.and_true]
  have hstarts : startsAnyOf ['b', 'i', 'o', a, b, c, 'x', 'x', 'x', 'x', 'x', 'x', 'x', 'x', 'x']
      SCI_PREFIXES = true := by
    rw [startsAnyOf, SCI_PREFIXES]
    simp only [List.any_cons]
    have hpre : List.isPrefixOf (str r"bio")
        ['b', 'i', 'o', a, b, c, 'x', 'x', 'x', 'x', 'x', 'x', 'x', 'x', 'x'] = true := rfl
    rw [hpre]
    simp
  rw [is_candidate_single_word]
  simp only [List.isEmpty_cons, Bool.false_eq_true, if_false, hfil, hlow, hcommon,
    hallowed, hdig, hauthor, hacr, hlowr, hstarts, List.length_cons, List.length_nil]
  simp +decide only [List.isEmpty_cons, Bool.false_eq_true, if_false, hfil, hlow, hcommon,
    hallowed, hdig, hauthor, hacr, hlowr, hstarts, List.length_cons, List.length_nil]
  simp +decide


theorem genTerm_accepted (n : Nat) :
    (!(genTerm n).isEmpty && is_candidate_single_word (genTerm n)) = true := by
  have h := accept_biodigit (dchar (n / 100 % 10)) (dchar (n / 10 % 10)) (dchar (n % 10))
    (isDigitA_dchar _ (Nat.mod_lt _ (by omega))) (isDigitA_dchar _ (Nat.mod_lt _ (by omega)))
    (isDigitA_dchar _ (Nat.mod_lt _ (by omega)))
  simp only [genTerm, List.isEmpty_cons, Bool.not_false, Bool.true_and]
  exact h

theorem genTerm_inj (x y : Nat) (hx : x < 301) (hy : y < 301)
    (h : genTerm x = genTerm y) : x = y := by
  simp only [genTerm, List.cons.injEq, eq_self_iff_true, true_and, and_true] at h
  obtain ⟨h2, h1, h0⟩ := h
  have e2 := dchar_inj _ _ (Nat.mod_lt _ (by omega)) (Nat.mod_lt _ (by omega)) h2
  have e1 := dchar_inj _ _ (Nat.mod_lt _ (by omega)) (Nat.mod_lt _ (by omega)) h1
  have e0 := dchar_inj _ _ (Nat.mod_lt _ (by omega)) (Nat.mod_lt _ (by omega)) h0
  omega

theorem C5_cap_enforcement_witness :
    MAX_TERMS_PER_DOCUMENT < (sortedCandidates C5pages).length ∧
    (submittedTerms C5pages = (sortedCandidates C5pages).take MAX_TERMS_PER_DOCUMENT ∧
     (extract_ontology_terms (fun _ => none) C5pages).length ≤ MAX_TERMS_PER_DOCUMENT ∧
     (sortedCandidates C5pages).take MAX_TERMS_PER_DOCUMENT ++
         (sortedCandidates C5pages).drop MAX_TERMS_PER_DOCUMENT =
       sortedCandidates C5pages) := by
  have hcollect : collectRaw C5pages = (List.range 301).map genTerm := by
    rw [collectRaw, C5pages]
    simp only [List.flatMap_cons, List.flatMap_nil, List.append_nil]
    exact List.filter_eq_self.mpr fun a ha => by
      obtain ⟨n, hn, rfl⟩ := List.mem_map.mp ha
      exact genTerm_accepted n
  have hnodup : (collectRaw C5pages).Nodup := by
    rw [hcollect]
    exact List.Nodup.map_on (fun x hx y hy h =>
      genTerm_inj x y (List.mem_range.mp hx) (List.mem_range.mp hy) h)
      (List.nodup_range 301)
  have hlen : (sortedCandidates C5pages).length = 301 := by
    rw [sortedCandidates, (pySort_perm strLe _).length_eq, List.dedup_eq_self.mpr hnodup,
      hcollect, List.length_map, List.length_range]
  have h : MAX_TERMS_PER_DOCUMENT < (sortedCandidates C5pages).length := by
    rw [hlen]
    decide
  exact ⟨h, C5_cap_enforcement (fun _ => none) C5pages h⟩

/-- A resolver hit used by the C1 failing input. -/
def C1hit : OlsHit := ⟨str r"Mycoplasma bovis", str r"A species of bacteria", none⟩

/-- A deterministic stand-in for the OLS4 call resolving exactly one phrase. -/
def C1lookup : Str → Option OlsHit :=
  fun t => if t == str r"Mycoplasma bovis" then some C1hit else none

/-- A document whose only candidate is the phrase "Mycoplasma bovis". -/
def C1pages : List PageIn := [⟨[], [str r"Mycoplasma bovis"]⟩]

/-- The phrase list the merge step walks for that document. -/
def C1phrases : List APhrase :=
  [⟨str r"Mycoplasma bovis",
    [plainAWord ⟨str r"Mycoplasma", 0, 0, 10, 2, 1⟩,
     plainAWord ⟨str r"bovis", 12, 0, 6, 2, 1⟩]⟩]

/-- Claim C1: the annotation-merge step is NOT exception-free.  For the
resolver-produced table resolving the phrase "Mycoplasma bovis" (a hit with
only `label`/`definition`/`iri` keys, as `lookup_term_ols4` always builds),
the merge reads `hit["source"]` (server.py:100) and raises `KeyError("source")`,
aborting the request.  This contradicts both the claim and the source's own
design (the resolver never emits a `source` key, yet the merge requires one). -/
theorem C1_merge_raises_keyerror :
    mergePhraseDefs (resolverTable C1lookup C1pages) C1phrases =
      Except.error (str r"source") := by
  rfl

/-- Claim C7: the word "PG45" satisfies every acceptance condition the claim
lists — it matches the strain pattern `^[A-Z]{1,4}\d{1,4}[A-Za-z0-9]*$`, has
length ≥ 3, is not a common word and is not a pure number — yet the filter
rejects it, because Python's `isupper()` is true on "PG45" and the standalone
acronym rejection (ontology.py:137) fires before the strain branch
(ontology.py:155) is reached; the strain branch's own comment names "PG45"
and "HB0801" as intended accepts, so that branch is dead code for them. -/
theorem C7_strain_pattern_rejected :
    strainLike (str r"PG45") = true ∧
    3 ≤ (str r"PG45").length ∧
    COMMON_WORDS.contains (lowerStr (str r"PG45")) = false ∧
    pyIsDigit (str r"PG45") = false ∧
    is_acronym (str r"PG45") = true ∧
    is_candidate_single_word (str r"PG45") = false := by
  decide

/-- Claim C8: the word "Mycoplasma" is purely alphabetic, matches
`^[A-Z][a-z]+$`, has length ≥ 3 and is not a common word, yet the filter
rejects it: `looks_like_author_name` (ontology.py:53) matches every such word,
and the author-name rejection (ontology.py:133) fires before the capitalized
taxonomic accept branch (ontology.py:167), leaving that accept branch
unreachable. -/
theorem C8_capitalized_taxonomic_rejected :
    pyIsAlpha (str r"Mycoplasma") = true ∧
    capLowerPlus (str r"Mycoplasma") = true ∧
    3 ≤ (str r"Mycoplasma").length ∧
    COMMON_WORDS.contains (lowerStr (str r"Mycoplasma")) = false ∧
    looks_like_author_name (str r"Mycoplasma") = true ∧
    is_candidate_single_word (str r"Mycoplasma") = false := by
  decide

/-- Identity render metadata (rendered size = pdf size, scale 1). -/
def C2meta : PageMeta := ⟨100, 100, 100, 100⟩

/-- A minimal stopword predicate (membership in {"the"}). -/
def C2stop : Str → Bool := fun t => t == str r"the"

/-- One page with two words on the same line separated by a 490-unit gap. -/
def C2pages : List (PageMeta × List RawWord) :=
  [(C2meta, [⟨str r"Mycoplasma", 0, 0, 10, 2⟩, ⟨str r"bovis", 500, 0, 510, 2⟩])]

/-- The two normalized words of `C2pages`. -/
def C2w1 : Word := ⟨str r"Mycoplasma", 0, 0, 10, 2, 1⟩

/-- Second word of `C2pages`: 490 units to the right of the first. -/
def C2w2 : Word := ⟨str r"bovis", 500, 0, 10, 2, 1⟩

/-- Claim C2 (counterexample): the phrase grouper checks no geometry.  Two
same-line words with a horizontal gap of 490 units (far outside `[-3, 40)`)
are grouped into one phrase, so a produced Phrase can violate `adjacent`. -/
theorem C2_counterexample :
    (⟨str r"Mycoplasma bovis", [C2w1, C2w2]⟩ : Phrase) ∈
        reconstructPhrases C2stop C2pages ∧
      ¬ spec_adjacent C2w1 C2w2 :=
  of_decide_eq_true (by with_unfolding_all rfl)

/-- Claim C2 (amended): consecutive member words of a produced Phrase are
consecutive elements of the globally sorted word list — each Phrase's word
list is a contiguous slice of `all_words` — but no geometric `same_line` or
`adjacent` condition is enforced between them. -/
theorem C2_phrase_words_contiguous (stop : Str → Bool)
    (pages : List (PageMeta × List RawWord)) (p : Phrase)
    (h : p ∈ reconstructPhrases stop pages) :
    p.words <:+: pipelineWords pages := by
  obtain ⟨w, more, hw, _, hinf⟩ := extractPhrases_mem stop (pipelineWords pages) p h
  rw [hw]
  exact hinf

theorem C2_phrase_words_contiguous_witness :
    (⟨str r"Mycoplasma bovis", [C2w1, C2w2]⟩ : Phrase) ∈
        reconstructPhrases C2stop C2pages ∧
      (⟨str r"Mycoplasma bovis", [C2w1, C2w2]⟩ : Phrase).words <:+: pipelineWords C2pages := by
  have h : (⟨str r"Mycoplasma bovis", [C2w1, C2w2]⟩ : Phrase) ∈
      reconstructPhrases C2stop C2pages := of_decide_eq_true (by with_unfolding_all rfl)
  exact ⟨h, C2_phrase_words_contiguous C2stop C2pages _ h⟩

/-- Three sorted words whose texts are "a-", "b-", "c". -/
def C3ws : List Word := [⟨str r"a-", 0, 0, 1, 1, 1⟩, ⟨str r"b-", 2, 0, 1, 1, 1⟩,
                         ⟨str r"c", 4, 0, 1, 1, 1⟩]

/-- Claim C3 (counterexample): the merge pass is not idempotent.  On the
sorted sequence "a-", "b-", "c" the first pass merges the first two words into
"ab-" (the stripped hyphen is reintroduced by the second word's own trailing
hyphen), and a second pass merges again, producing "abc". -/
theorem C3_counterexample :
    pySort wordLe2 C3ws = C3ws ∧
      hyphenMerge (hyphenMerge C3ws) ≠ hyphenMerge C3ws :=
  of_decide_eq_true (by with_unfolding_all rfl)

/-- Claim C3 (amended): the merge pass is idempotent on every word sequence in
which no two consecutive words both end with a hyphen (the counterexample
needs a merged word to inherit a trailing hyphen from its absorbed successor). -/
theorem C3_merge_idempotent_of_no_double_hyphen (ws : List Word)
    (h : ws.Chain' fun a b => endsHyphen a.text = false ∨ endsHyphen b.text = false) :
    hyphenMerge (hyphenMerge ws) = hyphenMerge ws :=
  hyphenMerge_of_noMid _ (hyphenMerge_noMid ws h)

theorem C3_merge_idempotent_witness :
    ([⟨str r"Myco-", 0, 0, 1, 1, 1⟩, ⟨str r"plasma", 2, 0, 1, 1, 1⟩,
      ⟨str r"bovis", 4, 0, 1, 1, 1⟩] : List Word).Chain'
        (fun a b => endsHyphen a.text = false ∨ endsHyphen b.text = false) ∧
      hyphenMerge (hyphenMerge [⟨str r"Myco-", 0, 0, 1, 1, 1⟩,
          ⟨str r"plasma", 2, 0, 1, 1, 1⟩, ⟨str r"bovis", 4, 0, 1, 1, 1⟩]) =
        hyphenMerge [⟨str r"Myco-", 0, 0, 1, 1, 1⟩, ⟨str r"plasma", 2, 0, 1, 1, 1⟩,
          ⟨str r"bovis", 4, 0, 1, 1, 1⟩] := by
  have h : ([⟨str r"Myco-", 0, 0, 1, 1, 1⟩, ⟨str r"plasma", 2, 0, 1, 1, 1⟩,
      ⟨str r"bovis", 4, 0, 1, 1, 1⟩] : List Word).Chain'
        (fun a b => endsHyphen a.text = false ∨ endsHyphen b.text = false) :=
    List.chain'_cons.mpr ⟨Or.inr (by decide),
      List.chain'_cons.mpr ⟨Or.inl (by decide), List.chain'_singleton _⟩⟩
  exact ⟨h, C3_merge_idempotent_of_no_double_hyphen _ h⟩

/-- Two pages, one word each ("Mycoplasma" on page 1, "bovis" on page 2). -/
def C9pages : List (PageMeta × List RawWord) :=
  [(⟨100, 100, 100, 100⟩, [⟨str r"Mycoplasma", 0, 0, 10, 2⟩]),
   (⟨100, 100, 100, 100⟩, [⟨str r"bovis", 0, 0, 6, 2⟩])]

/-- The stopword predicate used by the C9 inputs. -/
def C9stop : Str → Bool := fun t => t == str r"the"

/-- The normalized words of `C9pages` (pages 1 and 2). -/
def C9w1 : Word := ⟨str r"Mycoplasma", 0, 0, 10, 2, 1⟩

/-- The page-2 word of `C9pages`. -/
def C9w2 : Word := ⟨str r"bovis", 0, 0, 6, 2, 2⟩

/-- Claim C9 (counterexample): the greedy grouper checks no page boundary.
The last word of page 1 and the first word of page 2 (consecutive in the
globally sorted list, neither a stopword) are grouped into one Phrase, so a
Phrase can span two pages. -/
theorem C9_counterexample :
    (⟨str r"Mycoplasma bovis", [C9w1, C9w2]⟩ : Phrase) ∈
        reconstructPhrases C9stop C9pages ∧
      C9w1.page ≠ C9w2.page :=
  of_decide_eq_true (by with_unfolding_all rfl)

/-- Claim C9 (amended): a produced Phrase's member words appear in global
reading order, so their page numbers are non-decreasing — but a Phrase may
span a page boundary. -/
theorem C9_phrase_pages_monotone (stop : Str → Bool)
    (pages : List (PageMeta × List RawWord)) (p : Phrase)
    (h : p ∈ reconstructPhrases stop pages) :
    p.words.Chain' fun a b => a.page ≤ b.page := by
  obtain ⟨w, more, hw, _, hinf⟩ :=
    extractPhrases_mem stop (pipelineWords pages) p h
  have hpw : (pipelineWords pages).Pairwise fun a b => wordLe3 a b = true :=
    pySort_pairwise wordLe3 wordLe3_total wordLe3_trans _
  have hsub : (w :: more).Pairwise fun a b => wordLe3 a b = true :=
    List.Pairwise.sublist hinf.sublist hpw
  rw [hw]
  exact (hsub.imp fun hab => wordLe3_page _ _ hab).chain'

theorem C9_phrase_pages_monotone_witness :
    (⟨str r"Mycoplasma bovis", [C9w1, C9w2]⟩ : Phrase) ∈
        reconstructPhrases C9stop C9pages ∧
      (⟨str r"Mycoplasma bovis", [C9w1, C9w2]⟩ : Phrase).words.Chain'
        (fun a b => a.page ≤ b.page) := by
  have h : (⟨str r"Mycoplasma bovis", [C9w1, C9w2]⟩ : Phrase) ∈
      reconstructPhrases C9stop C9pages := of_decide_eq_true (by with_unfolding_all rfl)
  exact ⟨h, C9_phrase_pages_monotone C9stop C9pages _ h⟩

/-- Claim C10: every Phrase emitted by the greedy extraction has at least one
and at most five member words (the `max_len = 5` bound of extract_text.py:116). -/
theorem C10_phrase_length_bounds (stop : Str → Bool) (ws : List Word) (p : Phrase)
    (h : p ∈ extractPhrases stop ws) :
    1 ≤ p.words.length ∧ p.words.length ≤ 5 := by
  obtain ⟨w, more, hw, hlen, _⟩ := extractPhrases_mem stop ws p h
  rw [hw, List.length_cons]
  exact ⟨Nat.succ_le_succ (Nat.zero_le _), Nat.succ_le_succ hlen⟩

/-- The single word of the C10 witness input. -/
def C10w : Word := ⟨str r"biofilm", 0, 0, 5, 2, 1⟩

theorem C10_phrase_length_bounds_witness :
    (⟨str r"biofilm", [C10w]⟩ : Phrase) ∈
        extractPhrases (fun t => t == str r"the") [C10w] ∧
      (1 ≤ (⟨str r"biofilm", [C10w]⟩ : Phrase).words.length ∧
        (⟨str r"biofilm", [C10w]⟩ : Phrase).words.length ≤ 5) := by
  have h : (⟨str r"biofilm", [C10w]⟩ : Phrase) ∈
      extractPhrases (fun t => t == str r"the") [C10w] :=
    of_decide_eq_true (by with_unfolding_all rfl)
  exact ⟨h, C10_phrase_length_bounds _ _ _ h⟩
